import Mathlib

set_option maxRecDepth 1000000
set_option maxHeartbeats 4000000

/-!
Verification of the FPL squad optimizer (`fplopti`).

A shallow embedding of `src/app/optimizer_logic.py` (the operative optimizer
module, reached through the FastAPI endpoint in `src/app/main.py`), together
with theorems settling the specification claims.

Modelling conventions:

* Python `float` prices/points are modelled by an exact rational type `Q`
  (numerator/denominator in lowest terms).  The repository only ever compares,
  adds, multiplies and divides these values, so exact rationals are a faithful
  stand-in for the float arithmetic on the magnitudes involved.
* A pandas dataframe of players is a `List Player`; `pd.read_json` produces a
  fresh `RangeIndex`, modelled by numbering the rows with `List.enum`.
* A pandas `NaN` cell is `Option.none`; `fillna` is `Option.getD`.
  Missing *columns* (`'status' in df.columns` checks) are represented by all
  rows carrying `none` in that column.
* The PuLP CBC solve of a 0/1 program over the candidate rows is modelled by
  an exhaustive scan of the sublists of the candidate list: `solveBinary`
  returns a feasible subset of maximal objective value (deterministic
  tie-break, as the spec demands of the solver), and `none` exactly when the
  problem is infeasible (CBC status other than `Optimal`).
* `pandas.sort_values` is modelled by `List.insertionSort` (a deterministic
  comparison sort; the claims only use sortedness and permutation).
* Result dictionaries are structures of `Option` fields: a Python dict that
  lacks a key has `none` in that field.  The display-only `next_opponent` /
  `is_home` passthrough columns and the final `round(x, 2)` display rounding
  of summary numbers are omitted; no claim mentions them.
-/

/-! ## Exact rational values

`Rat` of the core library is not reducible by the kernel, so the embedding
uses its own rational type.  All constructors normalize, hence structural
equality coincides with value equality for every value the programs build. -/

structure Q where
  num : Int
  den : Nat
  den_ne : den ≠ 0

instance : DecidableEq Q := fun a b =>
  decidable_of_iff (a.num = b.num ∧ a.den = b.den) (by
    cases a; cases b; simp)

/-- Normalize a fraction with nonzero denominator to lowest terms. -/
def Q.norm (n : Int) (d : Nat) (hd : d ≠ 0) : Q :=
  if hg : n.gcd (Int.ofNat d) = 0 then ⟨0, 1, one_ne_zero⟩
  else
    ⟨n / (n.gcd (Int.ofNat d) : Int), d / n.gcd (Int.ofNat d), by
      intro h0
      have hgd : n.gcd (Int.ofNat d) ∣ d :=
        Int.ofNat_dvd.mp (by simpa using @Int.gcd_dvd_right n (Int.ofNat d))
      have := Nat.div_mul_cancel hgd
      rw [h0] at this
      exact hd (by simpa using this.symm)⟩

def Q.ofInt (n : Int) : Q := ⟨n, 1, one_ne_zero⟩

instance (n : Nat) : OfNat Q n := ⟨Q.ofInt n⟩

/-- A value given in tenths, e.g. `Q.tenths 45` is the price `4.5`. -/
def Q.tenths (n : Int) : Q := Q.norm n 10 (by decide)

protected def Q.add (a b : Q) : Q :=
  Q.norm (a.num * b.den + b.num * a.den) (a.den * b.den)
    (Nat.mul_ne_zero a.den_ne b.den_ne)

protected def Q.sub (a b : Q) : Q :=
  Q.norm (a.num * b.den - b.num * a.den) (a.den * b.den)
    (Nat.mul_ne_zero a.den_ne b.den_ne)

protected def Q.mul (a b : Q) : Q :=
  Q.norm (a.num * b.num) (a.den * b.den)
    (Nat.mul_ne_zero a.den_ne b.den_ne)

/-- Reciprocal; `0⁻¹ = 0` (never used at `0` by the programs). -/
protected def Q.inv (a : Q) : Q :=
  if h : a.num = 0 then Q.ofInt 0
  else if hpos : 0 < a.num then
    ⟨a.den, a.num.toNat, by
      intro h0
      exact h (by omega)⟩
  else
    ⟨-(a.den : Int), (-a.num).toNat, by
      intro h0
      exact h (by omega)⟩

protected def Q.div (a b : Q) : Q := a.mul b.inv

instance : Add Q := ⟨Q.add⟩
instance : Sub Q := ⟨Q.sub⟩
instance : Mul Q := ⟨Q.mul⟩
instance : Div Q := ⟨Q.div⟩

protected def Q.le (a b : Q) : Prop := a.num * b.den ≤ b.num * a.den
protected def Q.lt (a b : Q) : Prop := a.num * b.den < b.num * a.den

instance : LE Q := ⟨Q.le⟩
instance : LT Q := ⟨Q.lt⟩

instance : DecidableRel (· ≤ · : Q → Q → Prop) := fun a b =>
  inferInstanceAs (Decidable (a.num * b.den ≤ b.num * a.den))
instance : DecidableRel (· < · : Q → Q → Prop) := fun a b =>
  inferInstanceAs (Decidable (a.num * b.den < b.num * a.den))

theorem Q.den_pos (a : Q) : (0 : Int) < a.den := by
  have := a.den_ne
  omega

theorem Q.le_refl (a : Q) : a ≤ a := Int.le_refl _

theorem Q.le_total (a b : Q) : a ≤ b ∨ b ≤ a :=
  Int.le_total (a.num * b.den) (b.num * a.den)

theorem Q.le_trans {a b c : Q} (hab : a ≤ b) (hbc : b ≤ c) : a ≤ c := by
  have h1 : a.num * b.den * c.den ≤ b.num * a.den * c.den :=
    mul_le_mul_of_nonneg_right hab (le_of_lt c.den_pos)
  have h2 : b.num * c.den * a.den ≤ c.num * b.den * a.den :=
    mul_le_mul_of_nonneg_right hbc (le_of_lt a.den_pos)
  have key : a.num * c.den * b.den ≤ c.num * a.den * b.den := by
    calc a.num * c.den * b.den = a.num * b.den * c.den := by ring
    _ ≤ b.num * a.den * c.den := h1
    _ = b.num * c.den * a.den := by ring
    _ ≤ c.num * b.den * a.den := h2
    _ = c.num * a.den * b.den := by ring
  exact le_of_mul_le_mul_right key b.den_pos

theorem Q.le_of_lt {a b : Q} (h : a < b) : a ≤ b := Int.le_of_lt h

theorem Q.le_of_not_lt {a b : Q} (h : ¬ a < b) : b ≤ a := Int.not_lt.mp h

/-- Sum of a list of values (`pulp.lpSum` over selected rows). -/
def Q.sum (l : List Q) : Q := l.foldr Q.add 0

/-! ## Data model

`Player` is one row of the dataframe loaded from `fpl_data.json`
(`src/app/data_fetcher.py` produces: name, team, position, price,
expected_points, status, chance_of_playing_this_round, ownership_percentage,
plus display-only opponent context).  `Row` is a row of the private working
copy after the score-adjustment phase, carrying the dataframe index `idx`
(a fresh `RangeIndex`, hence unique by construction) and the derived
`adjusted_expected_points` column `adj`. -/

inductive Pos where
  | GKP | DEF | MID | FWD
deriving DecidableEq

structure Player where
  name : String
  team : Nat
  pos : Pos
  price : Q
  expected_points : Option Q := none
  status : String := "a"
  chance_of_playing : Option Q := none
  ownership : Option Q := none
deriving DecidableEq

structure Row where
  idx : Nat
  name : String
  team : Nat
  pos : Pos
  price : Q
  adj : Q
  ownership : Option Q
deriving DecidableEq

/-! ## ScoreAdjuster

Embedding of the `adjusted_expected_points` computation
(`src/app/optimizer_logic.py`, lines 59-68).  Pandas `NaN` is `none`;
a comparison with `NaN` is `false`; arithmetic propagates `NaN`;
`fillna(0)` is `Option.getD 0`. -/

/-- Whether the availability status excludes the player
(`df['status'].isin(['i', 's'])`). -/
def statusOut (p : Player) : Bool := p.status == "i" || p.status == "s"

/-- `NaN`-aware strict comparison with a constant: `NaN < c` is `false`. -/
def nanLt (a : Option Q) (c : Q) : Bool :=
  match a with
  | none => false
  | some x => decide (x < c)

/-- `NaN`-propagating multiplication of dataframe cells. -/
def nanMul (a b : Option Q) : Option Q :=
  match a, b with
  | some x, some y => some (x * y)
  | _, _ => none

/-- `NaN`-propagating division of a dataframe cell by a constant. -/
def nanDivC (a : Option Q) (c : Q) : Option Q :=
  match a with
  | none => none
  | some x => some (x / c)

/-- `df['adjusted_expected_points'] = df['expected_points'].copy()`. -/
def adjStep1 (p : Player) : Option Q := p.expected_points

/-- `df.loc[df['status'].isin(['i','s']), 'adjusted_expected_points'] = 0`. -/
def adjStep2 (p : Player) : Option Q :=
  if statusOut p then some 0 else adjStep1 p

/-- `df.loc[(chance < 100) & ~status.isin(['i','s']), adj] *= chance / 100`. -/
def adjStep3 (p : Player) : Option Q :=
  if nanLt p.chance_of_playing 100 && !statusOut p then
    nanMul (adjStep2 p) (nanDivC p.chance_of_playing 100)
  else adjStep2 p

/-- `df['adjusted_expected_points'] = df['adjusted_expected_points'].fillna(0)`. -/
def adjustedPoints (p : Player) : Q := (adjStep3 p).getD 0

/-- Build the working-copy row for dataframe index `i`. -/
def prep (i : Nat) (p : Player) : Row :=
  { idx := i, name := p.name, team := p.team, pos := p.pos, price := p.price,
    adj := adjustedPoints p, ownership := p.ownership }

/-- The working copy: `pd.read_json` gives the rows a fresh `RangeIndex`. -/
def prepRows (pool : List Player) : List Row :=
  pool.enum.map (fun ip => prep ip.1 ip.2)

/-! ## FPL rule constants (`run_fpl_optimizer`, lines 21-31) -/

def BUDGET : Q := 100

def SQUAD_POSITIONS : Pos → Nat
  | .GKP => 2 | .DEF => 5 | .MID => 5 | .FWD => 3

def TOTAL_SQUAD_PLAYERS : Nat := 15

def MAX_PLAYERS_PER_CLUB : Nat := 3

def STARTING_XI_POS_MIN : Pos → Nat
  | .GKP => 1 | .DEF => 3 | .MID => 2 | .FWD => 1

def STARTING_XI_POS_MAX : Pos → Nat
  | .GKP => 1 | .DEF => 5 | .MID => 5 | .FWD => 3

def TOTAL_STARTING_XI_PLAYERS : Nat := 11

def CHEAP_PLAYER_THRESHOLDS : Pos → Q
  | .GKP => 4 | .DEF => 4 | .MID => Q.tenths 45 | .FWD => Q.tenths 45

def allPositions : List Pos := [.GKP, .DEF, .MID, .FWD]

/-- `lpSum(vars[i] * price[i])` over a selected set of rows. -/
def totalPrice (l : List Row) : Q := Q.sum (l.map (·.price))

/-- `lpSum(vars[i] * adjusted_expected_points[i])` over a selected set. -/
def totalAdj (l : List Row) : Q := Q.sum (l.map (·.adj))

/-- Number of selected rows in a position (`df['position'] == pos` count). -/
def countPos (pos : Pos) (l : List Row) : Nat := l.countP (fun r => r.pos == pos)

/-- `df['team'].unique()`. -/
def teamsOf (l : List Row) : List Nat := (l.map (·.team)).dedup

/-! ## The 0/1 solver

`prob.solve(pulp.PULP_CBC_CMD(msg=0))` on a binary program over the candidate
rows.  A subset of rows is a sublist of the candidate list (one binary
variable per row).  Every binary program of the module carries an exact
cardinality constraint (`lpSum(vars) == K`), which the solver model takes as
the subset-size parameter `K`; the remaining constraints form the feasibility
predicate.  `solveBinary` scans all size-`K` subsets by a depth-first
include/exclude recursion (pruning branches that cannot reach size `K`),
keeps a feasible subset of maximal objective value (deterministic tie-break),
and returns `none` exactly when the program is infeasible — the
`LpStatus != 'Optimal'` error branch. -/

/-- Keep the better of two candidate solutions (left wins ties). -/
def better (obj : List Row → Q) : Option (List Row) → Option (List Row) → Option (List Row)
  | none, b => b
  | some a, none => some a
  | some a, some b => if obj a < obj b then some b else some a

/-- Best feasible completion of the partial selection `acc` (in reverse) with
exactly `need` more rows taken from `pending`, in order. -/
def solveAux (feas : List Row → Bool) (obj : List Row → Q) :
    Nat → List Row → List Row → Option (List Row)
  | 0, acc, _ => if feas acc.reverse then some acc.reverse else none
  | _ + 1, _, [] => none
  | need + 1, acc, c :: cs =>
    if cs.length + 1 < need + 1 then none
    else
      better obj (solveAux feas obj need (c :: acc) cs)
        (solveAux feas obj (need + 1) acc cs)

def solveBinary (cands : List Row) (card : Nat) (feas : List Row → Bool)
    (obj : List Row → Q) : Option (List Row) :=
  solveAux feas obj card [] cands

theorem better_eq_none {obj : List Row → Q} {x y : Option (List Row)}
    (h : better obj x y = none) : x = none ∧ y = none := by
  cases x <;> cases y <;> simp_all [better]
  split at h <;> simp_all

theorem better_eq_some {obj : List Row → Q} {x y : Option (List Row)} {s : List Row}
    (h : better obj x y = some s) : x = some s ∨ y = some s := by
  cases x <;> cases y <;> simp_all [better]
  split at h <;> simp_all

theorem better_le_left {obj : List Row → Q} {x y : Option (List Row)} {s a : List Row}
    (h : better obj x y = some s) (hx : x = some a) : obj a ≤ obj s := by
  subst hx
  cases y <;> simp_all [better]
  · exact Q.le_refl _
  · split at h
    · cases h; exact Q.le_of_lt (by assumption)
    · cases h; exact Q.le_refl _

theorem better_le_right {obj : List Row → Q} {x y : Option (List Row)} {s b : List Row}
    (h : better obj x y = some s) (hy : y = some b) : obj b ≤ obj s := by
  subst hy
  cases x <;> simp_all [better]
  · exact Q.le_refl _
  · rename_i a
    split at h
    · cases h; exact Q.le_refl _
    · cases h; exact Q.le_of_not_lt (by assumption)

theorem solveAux_sound {feas : List Row → Bool} {obj : List Row → Q} :
    ∀ {cs : List Row} {need : Nat} {acc s : List Row},
      solveAux feas obj need acc cs = some s →
      ∃ t, List.Sublist t cs ∧ t.length = need ∧ s = acc.reverse ++ t ∧ feas s = true
  | cs, 0, acc, s => by
    intro h
    simp only [solveAux] at h
    split at h
    · cases h
      exact ⟨[], List.nil_sublist _, rfl, by simp, by assumption⟩
    · cases h
  | [], need + 1, acc, s => by
    intro h
    exact Option.noConfusion h
  | c :: cs, need + 1, acc, s => by
    intro h
    simp only [solveAux] at h
    split at h
    · cases h
    · rcases better_eq_some h with h1 | h1
      · obtain ⟨t, hts, hlen, hs, hf⟩ := solveAux_sound h1
        refine ⟨c :: t, List.Sublist.cons₂ _ hts, by simp [hlen], ?_, hf⟩
        simpa [List.append_assoc] using hs
      · obtain ⟨t, hts, hlen, hs, hf⟩ := solveAux_sound h1
        exact ⟨t, List.Sublist.cons _ hts, hlen, hs, hf⟩

theorem solveAux_none {feas : List Row → Bool} {obj : List Row → Q} :
    ∀ {cs : List Row} {need : Nat} {acc : List Row},
      solveAux feas obj need acc cs = none →
      ∀ t, List.Sublist t cs → t.length = need → feas (acc.reverse ++ t) = false
  | cs, 0, acc => by
    intro h t ht hlen
    have : t = [] := List.length_eq_zero.mp hlen
    subst this
    simp only [solveAux] at h
    split at h
    · cases h
    · simpa using Bool.of_not_eq_true (by assumption)
  | [], need + 1, acc => by
    intro h t ht hlen
    have : t = [] := List.sublist_nil.mp ht
    subst this
    simp at hlen
  | c :: cs, need + 1, acc => by
    intro h t ht hlen
    simp only [solveAux] at h
    split at h
    · rename_i hprune
      have := ht.length_le
      simp at this
      omega
    · obtain ⟨h1, h2⟩ := better_eq_none h
      rcases List.sublist_cons_iff.mp ht with ht2 | ⟨r, rfl, hr⟩
      · exact solveAux_none h2 t ht2 hlen
      · have hrlen : r.length = need := by simpa using hlen
        have := solveAux_none h1 r hr hrlen
        simpa [List.append_assoc] using this

theorem solveAux_optimal {feas : List Row → Bool} {obj : List Row → Q} :
    ∀ {cs : List Row} {need : Nat} {acc s : List Row},
      solveAux feas obj need acc cs = some s →
      ∀ t, List.Sublist t cs → t.length = need → feas (acc.reverse ++ t) = true →
        obj (acc.reverse ++ t) ≤ obj s
  | cs, 0, acc, s => by
    intro h t ht hlen hf
    have : t = [] := List.length_eq_zero.mp hlen
    subst this
    simp only [solveAux] at h
    split at h
    · cases h
      rw [List.append_nil]
      exact Q.le_refl _
    · cases h
  | [], need + 1, acc, s => by
    intro h
    exact Option.noConfusion h
  | c :: cs, need + 1, acc, s => by
    intro h t ht hlen hf
    simp only [solveAux] at h
    split at h
    · cases h
    · rcases List.sublist_cons_iff.mp ht with ht2 | ⟨r, rfl, hr⟩
      · cases hy : solveAux feas obj (need + 1) acc cs with
        | none => exact absurd (solveAux_none hy t ht2 hlen) (by simp [hf])
        | some b =>
          exact Q.le_trans (solveAux_optimal hy t ht2 hlen hf) (better_le_right h hy)
      · have hrlen : r.length = need := by simpa using hlen
        cases hx : solveAux feas obj need (c :: acc) cs with
        | none =>
          have := solveAux_none hx r hr hrlen
          rw [show (c :: acc).reverse ++ r = acc.reverse ++ (c :: r) by simp] at this
          exact absurd this (by simp [hf])
        | some b =>
          have hb := solveAux_optimal hx r hr hrlen (by
            rw [show (c :: acc).reverse ++ r = acc.reverse ++ (c :: r) by simp]
            exact hf)
          rw [show (c :: acc).reverse ++ r = acc.reverse ++ (c :: r) by simp] at hb
          exact Q.le_trans hb (better_le_left h hx)

theorem solveBinary_sound {cands : List Row} {card : Nat} {feas : List Row → Bool}
    {obj : List Row → Q} {s : List Row} (h : solveBinary cands card feas obj = some s) :
    List.Sublist s cands ∧ s.length = card ∧ feas s = true := by
  obtain ⟨t, hts, hlen, hs, hf⟩ := solveAux_sound h
  simp only [List.reverse_nil, List.nil_append] at hs
  subst hs
  exact ⟨hts, hlen, hf⟩

theorem solveBinary_optimal {cands : List Row} {card : Nat} {feas : List Row → Bool}
    {obj : List Row → Q} {s : List Row} (h : solveBinary cands card feas obj = some s) :
    ∀ t, List.Sublist t cands → t.length = card → feas t = true → obj t ≤ obj s := by
  intro t ht hlen hf
  have := solveAux_optimal h t ht hlen (by simpa using hf)
  simpa using this

theorem solveBinary_isSome {cands : List Row} {card : Nat} {feas : List Row → Bool}
    {obj : List Row → Q} {t : List Row} (ht : List.Sublist t cands)
    (hlen : t.length = card) (hf : feas t = true) :
    (solveBinary cands card feas obj).isSome = true := by
  cases h : solveBinary cands card feas obj with
  | none =>
    have := solveAux_none h t ht hlen
    simp [hf] at this
  | some s => rfl

/-! ## Sort orders used by the pipeline (`pandas.sort_values` calls) -/

/-- `sort_values('price')` (ascending). -/
def byPriceAsc (a b : Row) : Prop := a.price ≤ b.price

/-- `sort_values(by='adjusted_expected_points', ascending=False)`. -/
def byAdjDesc (a b : Row) : Prop := b.adj ≤ a.adj

/-- Categorical order of the `position` column
(`pd.Categorical(..., categories=SQUAD_POSITIONS.keys(), ordered=True)`). -/
def posRank : Pos → Nat
  | .GKP => 0 | .DEF => 1 | .MID => 2 | .FWD => 3

/-- `sort_values(by=['position', 'adjusted_expected_points'], ascending=[True, False])`. -/
def byPosThenAdj (a b : Row) : Prop :=
  posRank a.pos < posRank b.pos ∨ (posRank a.pos = posRank b.pos ∧ b.adj ≤ a.adj)

instance : DecidableRel byPriceAsc := fun a b =>
  inferInstanceAs (Decidable (a.price ≤ b.price))
instance : DecidableRel byAdjDesc := fun a b =>
  inferInstanceAs (Decidable (b.adj ≤ a.adj))
instance : DecidableRel byPosThenAdj := fun a b =>
  inferInstanceAs (Decidable
    (posRank a.pos < posRank b.pos ∨ (posRank a.pos = posRank b.pos ∧ b.adj ≤ a.adj)))

instance : IsTotal Row byPriceAsc := ⟨fun a b => Q.le_total a.price b.price⟩
instance : IsTrans Row byPriceAsc := ⟨fun _ _ _ h1 h2 => Q.le_trans h1 h2⟩
instance : IsTotal Row byAdjDesc := ⟨fun a b => (Q.le_total b.adj a.adj)⟩
instance : IsTrans Row byAdjDesc := ⟨fun _ _ _ h1 h2 => Q.le_trans h2 h1⟩

/-! ## Objective functions (`_create_objective_function`, lines 240-263) -/

/-- Per-row contribution to the squad objective under a strategy. -/
def stratValue (strategy : String) (dw ow diff : Q) (r : Row) : Q :=
  if strategy = "defensive" then
    r.adj * (if r.pos == .DEF || r.pos == .GKP then dw else 1)
  else if strategy = "offensive" then
    r.adj * (if r.pos == .MID || r.pos == .FWD then ow else 1)
  else if strategy = "differential" then
    r.adj + diff * ((100 : Q) - r.ownership.getD 50)
  else
    r.adj

/-- Squad objective: `lpSum(vars[i] * weighted_value[i])`.  For the
`differential` strategy, a missing or non-numeric `ownership_percentage`
was filled with `50.0` beforehand (lines 254-256), modelled by `getD 50`. -/
def squadObj (strategy : String) (dw ow diff : Q) (l : List Row) : Q :=
  Q.sum (l.map (stratValue strategy dw ow diff))

/-! ## Constraint sets as decidable feasibility predicates

Each binary program's constraint list becomes one `Bool`-valued predicate on
the selected subset of rows; the cardinality constraint is tested first
(constraints are an unordered conjunction in the integer program). -/

/-- Squad constraints of `_optimize_traditional_approach` (lines 188-204)
besides the cardinality constraint (the solver's `card` argument): budget,
exact per-position counts, per-team cap, and for the `enabling` strategy the
minimum cheap-player count. -/
def squadFeasB (pool : List Row) (strategy : String) (minCheap : Nat) (l : List Row) : Bool :=
  decide (totalPrice l ≤ BUDGET) &&
  (allPositions.all fun pos => countPos pos l == SQUAD_POSITIONS pos) &&
  ((teamsOf pool).all fun t =>
    l.countP (fun r => r.team == t) ≤ MAX_PLAYERS_PER_CLUB) &&
  (if strategy = "enabling" then
    minCheap ≤ l.countP (fun r => decide (r.price ≤ CHEAP_PLAYER_THRESHOLDS r.pos))
   else true)

/-- Starting-XI constraints of `_optimize_traditional_approach`
(lines 219-226) besides the cardinality constraint: per-position min/max
bounds. -/
def xiFeasB (l : List Row) : Bool :=
  (allPositions.all fun pos =>
    decide (STARTING_XI_POS_MIN pos ≤ countPos pos l) &&
    decide (countPos pos l ≤ STARTING_XI_POS_MAX pos))

/-- Starting-XI constraints of `_optimize_best_11_cheap_bench`
(lines 133-149) besides the cardinality constraint: leftover budget,
per-position min/max bounds, and the per-team cap net of reserved bench
members (`lpSum ≤ MAX - bench_t` is stated as `lpSum + bench_t ≤ MAX`,
equivalent over the integers). -/
def xiFeasCheapB (pool benchRows : List Row) (remaining : Q) (l : List Row) : Bool :=
  decide (totalPrice l ≤ remaining) &&
  (allPositions.all fun pos =>
    decide (STARTING_XI_POS_MIN pos ≤ countPos pos l) &&
    decide (countPos pos l ≤ STARTING_XI_POS_MAX pos)) &&
  ((teamsOf pool).all fun t =>
    l.countP (fun r => r.team == t) + benchRows.countP (fun r => r.team == t)
      ≤ MAX_PLAYERS_PER_CLUB)

/-! ## Greedy bench of `_optimize_best_11_cheap_bench` (lines 107-122) -/

/-- `bench_positions = {"GKP": 1, "DEF": 2, "MID": 2, "FWD": 0}`. -/
def benchQuota : Pos → Nat
  | .GKP => 1 | .DEF => 2 | .MID => 2 | .FWD => 0

/-- The `bench_count` cheapest rows of one position
(`df[df['position'] == pos].sort_values('price')`, first `bench_count` rows),
or `none` when the pool has fewer than `bench_count` rows of that position. -/
def takeCheapest (k : Nat) (pos : Pos) (rows : List Row) : Option (List Row) :=
  if (List.insertionSort byPriceAsc (rows.filter (fun r => r.pos == pos))).length < k then
    none
  else
    some ((List.insertionSort byPriceAsc (rows.filter (fun r => r.pos == pos))).take k)

/-- The greedily reserved bench: the position loop of lines 114-122 unrolled
(`FWD` has quota `0` and contributes nothing). -/
def cheapestBench (rows : List Row) : Option (List Row) :=
  match takeCheapest (benchQuota .GKP) .GKP rows,
        takeCheapest (benchQuota .DEF) .DEF rows,
        takeCheapest (benchQuota .MID) .MID rows with
  | some g, some d, some m => some (g ++ d ++ m)
  | _, _, _ => none

/-- `df[~df.index.isin([p.name for p in cheapest_bench_players])]`. -/
def availableOf (rows benchRows : List Row) : List Row :=
  rows.filter (fun r => !((benchRows.map (·.idx)).contains r.idx))

/-! ## The two optimization cores -/

/-- `_optimize_best_11_cheap_bench` up to result formatting: reserve the
cheapest bench, then solve the starting-XI binary program over the remaining
pool with the leftover budget.  Returns `(starting_xi, bench)`. -/
def b11cbCore (rows : List Row) : Except String (List Row × List Row) :=
  match cheapestBench rows with
  | none => .error "Inte tillräckligt med spelare för bänkposition"
  | some benchRows =>
    match solveBinary (availableOf rows benchRows) TOTAL_STARTING_XI_PLAYERS
        (xiFeasCheapB rows benchRows (BUDGET - totalPrice benchRows)) totalAdj with
    | none => .error "Kunde inte hitta en optimal lösning."
    | some xi => .ok (xi, benchRows)

/-- `_optimize_traditional_approach` up to result formatting: solve the squad
program, then the starting-XI program over the chosen squad.
Returns `(squad, starting_xi)`. -/
def tradCore (rows : List Row) (strategy : String) (dw ow diff : Q) (minCheap : Nat) :
    Except String (List Row × List Row) :=
  match solveBinary rows TOTAL_SQUAD_PLAYERS (squadFeasB rows strategy minCheap)
      (squadObj strategy dw ow diff) with
  | none => .error "Kunde inte hitta en optimal trupp."
  | some squad =>
    match solveBinary squad TOTAL_STARTING_XI_PLAYERS xiFeasB totalAdj with
    | none => .error "Kunde inte hitta en optimal startelva."
    | some xi => .ok (squad, xi)

/-! ## Result assembly (`_format_results`, lines 266-319) -/

/-- One player entry of the API response (`result_columns` projected, with
`adjusted_expected_points` renamed to `expected_points`). -/
structure RowOut where
  name : String
  team : Nat
  pos : Pos
  price : Q
  expected_points : Q
deriving DecidableEq

def project (r : Row) : RowOut :=
  { name := r.name, team := r.team, pos := r.pos, price := r.price,
    expected_points := r.adj }

/-- The `summary` dictionary of a successful optimization. -/
structure Summary where
  squad_total_cost : Q
  xi_total_expected_points : Q
  bench_total_expected_points : Q
  strategy_used : String
  captain : Option RowOut
  vice_captain : Option RowOut
deriving DecidableEq

/-- A response dictionary.  A key the Python dict lacks is `none`. -/
structure ApiResult where
  error : Option String := none
  optimal_starting_xi : Option (List RowOut) := none
  bench : Option (List RowOut) := none
  summary : Option Summary := none
deriving DecidableEq

/-- `starting_xi_df.sort_values(by='adjusted_expected_points', ascending=False)`,
used to read off captain and vice-captain. -/
def captaincyOrder (xi : List Row) : List Row := List.insertionSort byAdjDesc xi

/-- The ordered bench: outfield players sorted by descending adjusted points,
then the goalkeeper rows (lines 273-276). -/
def benchOrder (benchRows : List Row) : List Row :=
  List.insertionSort byAdjDesc (benchRows.filter (fun r => !(r.pos == .GKP))) ++
    benchRows.filter (fun r => r.pos == .GKP)

/-- `_format_results(starting_xi_df, bench_df, squad_df, strategy)`. -/
def formatResults (xi benchRows squad : List Row) (strategy : String) : ApiResult :=
  let xiSorted := List.insertionSort byPosThenAdj xi
  let benchSorted := benchOrder benchRows
  let capOrder := captaincyOrder xiSorted
  { error := none
    optimal_starting_xi := some (xiSorted.map project)
    bench := some (benchSorted.map project)
    summary := some
      { squad_total_cost := totalPrice squad
        xi_total_expected_points := totalAdj xiSorted
        bench_total_expected_points := totalAdj benchSorted
        strategy_used := strategy
        captain := capOrder.head?.map project
        vice_captain := capOrder[1]?.map project } }

/-! ## `run_fpl_optimizer` (lines 11-94) -/

/-- The per-position pool pre-check of lines 74-78: the first position whose
pool count falls short of its squad quota, if any. -/
def checkPositions (rows : List Row) : Option Pos :=
  allPositions.find? (fun pos => countPos pos rows < SQUAD_POSITIONS pos)

/-- `run_fpl_optimizer(strategy, ...)`.  `data = none` models a missing or
unreadable `fpl_data.json`; the default tuning values are those of the Python
signature (1.2, 1.2, 0.05, 4). -/
def runFplOptimizer (data : Option (List Player)) (strategy : String)
    (dw : Q := Q.tenths 12) (ow : Q := Q.tenths 12)
    (diff : Q := Q.norm 5 100 (by decide)) (minCheap : Nat := 4) : ApiResult :=
  match data with
  | none => { error := some "Datakällan fpl_data.json hittades inte i app-mappen." }
  | some pool =>
    if pool.isEmpty then { error := some "Ingen spelardata tillgänglig" }
    else
      let rows := prepRows pool
      match checkPositions rows with
      | some _ => { error := some "Otillräckligt antal spelare för position" }
      | none =>
        if strategy = "best_11_cheap_bench" then
          match b11cbCore rows with
          | .error msg => { error := some msg }
          | .ok (xi, benchRows) => formatResults xi benchRows (xi ++ benchRows) strategy
        else
          match tradCore rows strategy dw ow diff minCheap with
          | .error msg => { error := some msg }
          | .ok (squad, xi) =>
            formatResults xi (availableOf squad xi) squad strategy

/-! ## The HTTP endpoint (`src/app/main.py`, `optimize_team`, lines 149-195)

The endpoint validates the strategy name against a closed list before doing
anything else; if the optimizer module could not be imported it answers with
the uniform empty-shape error body; if player data cannot be fetched it
raises HTTP 500; otherwise it calls the optimizer.  The optimizer call is a
parameter: `create_optimal_team`, the function `main.py` imports, is not part
of the sources (its import fails at runtime, leaving the fallback). -/

instance {e a : Type} [DecidableEq e] [DecidableEq a] : DecidableEq (Except e a) := fun x y =>
  match x, y with
  | .error u, .error v => decidable_of_iff (u = v) (by simp)
  | .ok u, .ok v => decidable_of_iff (u = v) (by simp)
  | .error _, .ok _ => isFalse (by simp)
  | .ok _, .error _ => isFalse (by simp)

inductive EndpointResult where
  | httpError (statusCode : Nat) (detail : String)
  | body (r : ApiResult)
deriving DecidableEq

def validStrategies : List String :=
  ["best_15", "best_11_cheap_bench", "defensive", "offensive", "enabling", "differential"]

/-- The zeroed summary of the endpoint's own error bodies (lines 163-168):
only `squad_total_cost`, `xi_total_expected_points` and `strategy_used` are
present in the Python dict; the embedding zeroes the remaining fields. -/
def zeroSummary (strategy : String) : Summary :=
  { squad_total_cost := 0, xi_total_expected_points := 0,
    bench_total_expected_points := 0, strategy_used := strategy,
    captain := none, vice_captain := none }

/-- The uniform error body of lines 160-169 and 186-195. -/
def emptyShapeResult (strategy msg : String) : ApiResult :=
  { error := some msg, optimal_starting_xi := some [], bench := some [],
    summary := some (zeroSummary strategy) }

def optimizeTeam (strategy : String) (optimizerAvailable : Bool)
    (fplData : Option (List Player)) (optimizer : List Player → String → ApiResult) :
    EndpointResult :=
  if !(validStrategies.contains strategy) then
    .httpError 400 "Invalid strategy."
  else if !optimizerAvailable then
    .body (emptyShapeResult strategy
      "Optimizer logic not available - check OR-Tools installation and deployment")
  else
    match fplData with
    | none => .httpError 500 "data_fetcher not available"
    | some pool => .body (optimizer pool strategy)

/-! ## Concrete player pools used by witnesses and counterexamples -/

/-- A pool row: an available player with the given name, team, position,
price and raw projected points. -/
def mkP (n : String) (tm : Nat) (ps : Pos) (price pts : Q) : Player :=
  { name := n, team := tm, pos := ps, price := price, expected_points := some pts }

/-- Sixteen players, 2 GKP / 6 DEF / 5 MID / 3 FWD, all on distinct teams.
The cheapest goalkeeper `g1` is also by far the strongest player. -/
def pool16 : List Player :=
  [ mkP "g1" 0 .GKP 4 100, mkP "g2" 1 .GKP 5 1,
    mkP "d1" 2 .DEF 4 1, mkP "d2" 3 .DEF 4 1,
    mkP "d3" 4 .DEF 5 6, mkP "d4" 5 .DEF 5 6,
    mkP "d5" 6 .DEF 5 6, mkP "d6" 7 .DEF 5 6,
    mkP "m1" 8 .MID 4 1, mkP "m2" 9 .MID 4 1,
    mkP "m3" 10 .MID 5 7, mkP "m4" 11 .MID 5 7, mkP "m5" 12 .MID 5 7,
    mkP "f1" 13 .FWD 5 8, mkP "f2" 14 .FWD 5 8, mkP "f3" 15 .FWD 5 8 ]

/-- Fifteen players matching the squad schema exactly
(2 GKP / 5 DEF / 5 MID / 3 FWD), all on distinct teams, total price 60. -/
def pool15 : List Player :=
  [ mkP "ga" 0 .GKP 4 5, mkP "gb" 1 .GKP 4 2,
    mkP "da" 2 .DEF 4 6, mkP "db" 3 .DEF 4 5,
    mkP "dc" 4 .DEF 4 4, mkP "dd" 5 .DEF 4 3, mkP "de" 6 .DEF 4 2,
    mkP "ma" 7 .MID 4 9, mkP "mb" 8 .MID 4 8,
    mkP "mc" 9 .MID 4 7, mkP "md" 10 .MID 4 2, mkP "me" 11 .MID 4 1,
    mkP "fa" 12 .FWD 4 9, mkP "fb" 13 .FWD 4 8, mkP "fc" 14 .FWD 4 1 ]

/-! ## Claim C4 — the score-adjustment rule -/

/-- **C4.** For every candidate, the adjusted value is `0` if the status is
injured (`"i"`) or suspended (`"s"`); otherwise `rawValue × (playProbability
/ 100)` when the play probability is below `100`; otherwise the raw value
unchanged; and a missing raw projected value yields `0` rather than a missing
value.  The left-hand side is the pandas masking/fillna pipeline of
`run_fpl_optimizer` lines 59-68; the right-hand side is the claim's case
analysis. -/
theorem C4_adjusted_value (p : Player) :
    adjustedPoints p =
      if p.status = "i" ∨ p.status = "s" then 0
      else
        match p.expected_points with
        | none => 0
        | some v =>
          match p.chance_of_playing with
          | some c => if c < 100 then v * (c / 100) else v
          | none => v := by
  by_cases hs : p.status = "i" ∨ p.status = "s"
  · have hb : statusOut p = true := by
      rcases hs with h | h <;> simp [statusOut, h]
    simp only [adjustedPoints, adjStep3, adjStep2, adjStep1, hb, if_pos hs]
    simp
  · have hb : statusOut p = false := by
      simp [statusOut]
      constructor
      · intro h; exact hs (Or.inl h)
      · intro h; exact hs (Or.inr h)
    simp only [adjustedPoints, adjStep3, adjStep2, adjStep1, hb, if_neg hs]
    cases hep : p.expected_points with
    | none =>
      cases hnl : nanLt p.chance_of_playing 100 <;> simp [hnl, nanMul]
    | some v =>
      cases hc : p.chance_of_playing with
      | none => simp [nanLt]
      | some c =>
        by_cases hlt : c < 100
        · simp [nanLt, hlt, nanMul, nanDivC]
        · simp [nanLt, hlt]

/-! ## Bridging the feasibility booleans to propositions -/

theorem xiFeasB_iff {t : List Row} : xiFeasB t = true ↔
    ∀ pos, STARTING_XI_POS_MIN pos ≤ countPos pos t ∧
      countPos pos t ≤ STARTING_XI_POS_MAX pos := by
  simp only [xiFeasB, allPositions, List.all_cons, List.all_nil, Bool.and_true,
    Bool.and_eq_true, decide_eq_true_eq]
  constructor
  · intro h pos
    cases pos <;> tauto
  · intro h
    exact ⟨⟨(h .GKP).1, (h .GKP).2⟩, ⟨(h .DEF).1, (h .DEF).2⟩,
      ⟨(h .MID).1, (h .MID).2⟩, ⟨(h .FWD).1, (h .FWD).2⟩⟩

theorem squadFeasB_counts {pool : List Row} {strategy : String} {minCheap : Nat}
    {l : List Row} (h : squadFeasB pool strategy minCheap l = true) :
    ∀ pos, countPos pos l = SQUAD_POSITIONS pos := by
  intro pos
  simp only [squadFeasB, allPositions, List.all_cons, List.all_nil, Bool.and_true,
    Bool.and_eq_true, decide_eq_true_eq, beq_iff_eq] at h
  cases pos <;> tauto

theorem squadFeasB_budget {pool : List Row} {strategy : String} {minCheap : Nat}
    {l : List Row} (h : squadFeasB pool strategy minCheap l = true) :
    totalPrice l ≤ BUDGET := by
  simp only [squadFeasB, Bool.and_eq_true, decide_eq_true_eq] at h
  tauto

theorem squadFeasB_teams {pool : List Row} {strategy : String} {minCheap : Nat}
    {l : List Row} (h : squadFeasB pool strategy minCheap l = true) :
    ∀ t ∈ teamsOf pool, l.countP (fun r => r.team == t) ≤ MAX_PLAYERS_PER_CLUB := by
  simp only [squadFeasB, Bool.and_eq_true, decide_eq_true_eq, List.all_eq_true] at h
  intro t ht
  exact h.1.2 t ht

/-! ## Claim C6 — a schema squad always admits a valid lineup -/

/-- Greedy selection of at most `g` goalkeepers, `d` defenders, `m`
midfielders and `f` forwards, scanning the squad in order.  Used to exhibit
a feasible starting eleven inside any schema-conforming squad. -/
def pickXI (g d m f : Nat) : List Row → List Row
  | [] => []
  | r :: rs =>
    if r.pos = .GKP then
      (if g = 0 then pickXI g d m f rs else r :: pickXI (g - 1) d m f rs)
    else if r.pos = .DEF then
      (if d = 0 then pickXI g d m f rs else r :: pickXI g (d - 1) m f rs)
    else if r.pos = .MID then
      (if m = 0 then pickXI g d m f rs else r :: pickXI g d (m - 1) f rs)
    else
      (if f = 0 then pickXI g d m f rs else r :: pickXI g d m (f - 1) rs)

theorem pickXI_sublist (g d m f : Nat) (l : List Row) :
    List.Sublist (pickXI g d m f l) l := by
  induction l generalizing g d m f with
  | nil => simp [pickXI]
  | cons r rs ih =>
    simp only [pickXI]
    repeat' split
    all_goals
      first
        | exact List.Sublist.cons _ (ih _ _ _ _)
        | exact List.Sublist.cons₂ _ (ih _ _ _ _)

theorem countPos_cons (pos : Pos) (r : Row) (l : List Row) :
    countPos pos (r :: l) = countPos pos l + (if r.pos = pos then 1 else 0) := by
  simp [countPos, List.countP_cons]

theorem pickXI_counts (g d m f : Nat) (l : List Row) :
    countPos .GKP (pickXI g d m f l) = min g (countPos .GKP l) ∧
    countPos .DEF (pickXI g d m f l) = min d (countPos .DEF l) ∧
    countPos .MID (pickXI g d m f l) = min m (countPos .MID l) ∧
    countPos .FWD (pickXI g d m f l) = min f (countPos .FWD l) := by
  induction l generalizing g d m f with
  | nil => simp [pickXI, countPos]
  | cons r rs ih =>
    rcases hr : r.pos with _ | _ | _ | _
    · by_cases h0 : g = 0
      · subst h0
        obtain ⟨i1, i2, i3, i4⟩ := ih 0 d m f
        refine ⟨?_, ?_, ?_, ?_⟩ <;>
          simp [pickXI, hr, countPos_cons, i1, i2, i3, i4] <;> omega
      · obtain ⟨i1, i2, i3, i4⟩ := ih (g - 1) d m f
        refine ⟨?_, ?_, ?_, ?_⟩ <;>
          simp [pickXI, hr, h0, countPos_cons, i1, i2, i3, i4] <;> omega
    · by_cases h0 : d = 0
      · subst h0
        obtain ⟨i1, i2, i3, i4⟩ := ih g 0 m f
        refine ⟨?_, ?_, ?_, ?_⟩ <;>
          simp [pickXI, hr, countPos_cons, i1, i2, i3, i4] <;> omega
      · obtain ⟨i1, i2, i3, i4⟩ := ih g (d - 1) m f
        refine ⟨?_, ?_, ?_, ?_⟩ <;>
          simp [pickXI, hr, h0, countPos_cons, i1, i2, i3, i4] <;> omega
    · by_cases h0 : m = 0
      · subst h0
        obtain ⟨i1, i2, i3, i4⟩ := ih g d 0 f
        refine ⟨?_, ?_, ?_, ?_⟩ <;>
          simp [pickXI, hr, countPos_cons, i1, i2, i3, i4] <;> omega
      · obtain ⟨i1, i2, i3, i4⟩ := ih g d (m - 1) f
        refine ⟨?_, ?_, ?_, ?_⟩ <;>
          simp [pickXI, hr, h0, countPos_cons, i1, i2, i3, i4] <;> omega
    · by_cases h0 : f = 0
      · subst h0
        obtain ⟨i1, i2, i3, i4⟩ := ih g d m 0
        refine ⟨?_, ?_, ?_, ?_⟩ <;>
          simp [pickXI, hr, countPos_cons, i1, i2, i3, i4] <;> omega
      · obtain ⟨i1, i2, i3, i4⟩ := ih g d m (f - 1)
        refine ⟨?_, ?_, ?_, ?_⟩ <;>
          simp [pickXI, hr, h0, countPos_cons, i1, i2, i3, i4] <;> omega

theorem length_eq_countPos_sum (l : List Row) :
    l.length = countPos .GKP l + countPos .DEF l + countPos .MID l + countPos .FWD l := by
  induction l with
  | nil => simp [countPos]
  | cons r rs ih =>
    simp only [List.length_cons, countPos_cons, ih]
    cases r.pos <;> simp <;> omega

/-- A schema-conforming 15-row squad contains a formation-valid starting
eleven, so the starting-XI binary program over it is feasible. -/
theorem xiSolve_isSome_of_schema {squad : List Row}
    (hg : countPos .GKP squad = 2) (hd : countPos .DEF squad = 5)
    (hm : countPos .MID squad = 5) (hf : countPos .FWD squad = 3) :
    (solveBinary squad TOTAL_STARTING_XI_PLAYERS xiFeasB totalAdj).isSome = true := by
  obtain ⟨c1, c2, c3, c4⟩ := pickXI_counts 1 4 4 2 squad
  rw [hg] at c1; rw [hd] at c2; rw [hm] at c3; rw [hf] at c4
  norm_num at c1 c2 c3 c4
  refine solveBinary_isSome (pickXI_sublist 1 4 4 2 squad) ?_ ?_
  · rw [length_eq_countPos_sum (pickXI 1 4 4 2 squad), c1, c2, c3, c4]
    decide
  · rw [xiFeasB_iff]
    intro pos
    cases pos <;> simp [c1, c2, c3, c4, STARTING_XI_POS_MIN, STARTING_XI_POS_MAX]

/-- **C6.** From any 15-candidate squad whose per-position counts equal the
squad schema (GKP 2, DEF 5, MID 5, FWD 3), an 11-member lineup within the
formation bounds can always be chosen, so the starting-XI program is feasible
and the lineup-infeasibility error branch of `_optimize_traditional_approach`
(line 230-231) is unreachable once a schema-conforming squad was found. -/
theorem C6_lineup_always_feasible (squad : List Row)
    (hg : countPos .GKP squad = 2) (hd : countPos .DEF squad = 5)
    (hm : countPos .MID squad = 5) (hf : countPos .FWD squad = 3) :
    (solveBinary squad TOTAL_STARTING_XI_PLAYERS xiFeasB totalAdj).isSome = true ∧
    ∀ (rows : List Row) (strategy : String) (dw ow diff : Q) (minCheap : Nat),
      tradCore rows strategy dw ow diff minCheap ≠
        Except.error "Kunde inte hitta en optimal startelva." := by
  constructor
  · exact xiSolve_isSome_of_schema hg hd hm hf
  · intro rows strategy dw ow diff minCheap
    unfold tradCore
    cases hsq : solveBinary rows TOTAL_SQUAD_PLAYERS (squadFeasB rows strategy minCheap)
        (squadObj strategy dw ow diff) with
    | none => simp
    | some sq =>
      dsimp only
      obtain ⟨hsub, hlen, hfeas⟩ := solveBinary_sound hsq
      have hcounts := squadFeasB_counts hfeas
      have hsome := xiSolve_isSome_of_schema (hcounts .GKP) (hcounts .DEF)
        (hcounts .MID) (hcounts .FWD)
      obtain ⟨xi, hxi⟩ := Option.isSome_iff_exists.mp hsome
      rw [hxi]
      simp

/-- Witness for C6 at a concrete schema-conforming squad. -/
theorem C6_lineup_always_feasible_witness :
    (countPos .GKP (prepRows pool15) = 2 ∧ countPos .DEF (prepRows pool15) = 5 ∧
      countPos .MID (prepRows pool15) = 5 ∧ countPos .FWD (prepRows pool15) = 3) ∧
    (solveBinary (prepRows pool15) TOTAL_STARTING_XI_PLAYERS xiFeasB totalAdj).isSome = true :=
  ⟨⟨by decide, by decide, by decide, by decide⟩,
    (C6_lineup_always_feasible (prepRows pool15) (by decide) (by decide) (by decide)
      (by decide)).1⟩

/-- The rows of `pool16` that the cheap-bench run keeps for the starting
eleven (the eleven non-bench players, forced by the size-11 constraint). -/
def xi16 : List Row :=
  [ ⟨1, "g2", 1, .GKP, 5, 1, none⟩, ⟨4, "d3", 4, .DEF, 5, 6, none⟩,
    ⟨5, "d4", 5, .DEF, 5, 6, none⟩, ⟨6, "d5", 6, .DEF, 5, 6, none⟩,
    ⟨7, "d6", 7, .DEF, 5, 6, none⟩, ⟨10, "m3", 10, .MID, 5, 7, none⟩,
    ⟨11, "m4", 11, .MID, 5, 7, none⟩, ⟨12, "m5", 12, .MID, 5, 7, none⟩,
    ⟨13, "f1", 13, .FWD, 5, 8, none⟩, ⟨14, "f2", 14, .FWD, 5, 8, none⟩,
    ⟨15, "f3", 15, .FWD, 5, 8, none⟩ ]

/-- The greedily reserved bench of `pool16`: the cheapest goalkeeper and the
two cheapest defenders and midfielders — five players. -/
def bench16 : List Row :=
  [ ⟨0, "g1", 0, .GKP, 4, 100, none⟩, ⟨2, "d1", 2, .DEF, 4, 1, none⟩,
    ⟨3, "d2", 3, .DEF, 4, 1, none⟩, ⟨8, "m1", 8, .MID, 4, 1, none⟩,
    ⟨9, "m2", 9, .MID, 4, 1, none⟩ ]

/-- A formation-valid 11-subset of the returned `pool16` squad that beats the
returned lineup: swap the weak starting goalkeeper `g2` for the benched
100-point goalkeeper `g1`. -/
def altXI16 : List Row :=
  [ ⟨4, "d3", 4, .DEF, 5, 6, none⟩, ⟨5, "d4", 5, .DEF, 5, 6, none⟩,
    ⟨6, "d5", 6, .DEF, 5, 6, none⟩, ⟨7, "d6", 7, .DEF, 5, 6, none⟩,
    ⟨10, "m3", 10, .MID, 5, 7, none⟩, ⟨11, "m4", 11, .MID, 5, 7, none⟩,
    ⟨12, "m5", 12, .MID, 5, 7, none⟩, ⟨13, "f1", 13, .FWD, 5, 8, none⟩,
    ⟨14, "f2", 14, .FWD, 5, 8, none⟩, ⟨15, "f3", 15, .FWD, 5, 8, none⟩,
    ⟨0, "g1", 0, .GKP, 4, 100, none⟩ ]

/-- The starting eleven the traditional run selects from `pool15` (the four
lowest-value players `gb`, `md`, `me`, `fc` stay on the bench). -/
def xiT15 : List Row :=
  [ ⟨0, "ga", 0, .GKP, 4, 5, none⟩, ⟨2, "da", 2, .DEF, 4, 6, none⟩,
    ⟨3, "db", 3, .DEF, 4, 5, none⟩, ⟨4, "dc", 4, .DEF, 4, 4, none⟩,
    ⟨5, "dd", 5, .DEF, 4, 3, none⟩, ⟨6, "de", 6, .DEF, 4, 2, none⟩,
    ⟨7, "ma", 7, .MID, 4, 9, none⟩, ⟨8, "mb", 8, .MID, 4, 8, none⟩,
    ⟨9, "mc", 9, .MID, 4, 7, none⟩, ⟨12, "fa", 12, .FWD, 4, 9, none⟩,
    ⟨13, "fb", 13, .FWD, 4, 8, none⟩ ]

/-- Evaluation of the cheap-bench core on `pool16`. -/
theorem b11cbCore_pool16 : b11cbCore (prepRows pool16) = .ok (xi16, bench16) := by decide

/-- Evaluation of the full cheap-bench run on `pool16`. -/
theorem run_pool16 : runFplOptimizer (some pool16) "best_11_cheap_bench" =
    formatResults xi16 bench16 (xi16 ++ bench16) "best_11_cheap_bench" := by decide

/-- Evaluation of the traditional core on `pool15` under the default
strategy: the unique feasible squad is the whole pool. -/
theorem tradCore_pool15 :
    tradCore (prepRows pool15) "best_15" (Q.tenths 12) (Q.tenths 12)
      (Q.norm 5 100 (by decide)) 4 = .ok (prepRows pool15, xiT15) := by decide

/-- Evaluation of the full run on `pool15` under the unknown strategy name
`"foo"`: the optimizer proceeds and succeeds. -/
theorem run_pool15_foo : runFplOptimizer (some pool15) "foo" =
    formatResults xiT15 (availableOf (prepRows pool15) xiT15) (prepRows pool15) "foo" := by
  decide

/-! ## Claim-facing feasibility notions -/

/-- Formation bounds of a starting eleven, as the spec states them. -/
def XiFeasible (t : List Row) : Prop :=
  ∀ pos, STARTING_XI_POS_MIN pos ≤ countPos pos t ∧
    countPos pos t ≤ STARTING_XI_POS_MAX pos

/-- Modelled from the spec: the feasible set of the single joint integer
program for the cost-sensitive strategy (one in-squad and one in-lineup
binary per candidate with `inLineup ≤ inSquad`, all squad-level constraints
on the in-squad variables, all lineup-level constraints on the in-lineup
variables).  Selections are sublists of the candidate rows, and
`inLineup ≤ inSquad` is the sublist relation between lineup and squad.  No
code in `src/` implements this program; it is stated only to be compared
with the two-phase computation the source performs. -/
def JointFeasible (rows squadSel xiSel : List Row) : Prop :=
  List.Sublist squadSel rows ∧ List.Sublist xiSel squadSel ∧
  squadSel.length = TOTAL_SQUAD_PLAYERS ∧
  totalPrice squadSel ≤ BUDGET ∧
  (∀ pos, countPos pos squadSel = SQUAD_POSITIONS pos) ∧
  (∀ tm ∈ teamsOf rows, squadSel.countP (fun r => r.team == tm) ≤ MAX_PLAYERS_PER_CLUB) ∧
  xiSel.length = TOTAL_STARTING_XI_PLAYERS ∧ XiFeasible xiSel

/-- Modelled from the spec: the joint program's objective
`Σ lineup adjustedValue − λ × Σ (inSquad − inLineup) × price` with `λ ≥ 0`
(default `1.0`). -/
def jointObjective (lam : Q) (squadSel xiSel : List Row) : Q :=
  totalAdj xiSel - lam * (totalPrice squadSel - totalPrice xiSel)

/-! ## Claim C1 -/

/-- **C1 (code bug).** Under the `best_11_cheap_bench` strategy the optimizer
returns a successful result on `pool16` whose squad (starting eleven plus
bench) has **16** members with **6** defenders — violating the claimed
`|Squad| = 15` and the per-position schema — because
`_optimize_best_11_cheap_bench` reserves a five-player bench
(`{"GKP": 1, "DEF": 2, "MID": 2}`) under an eleven-player lineup.  The
budget bound itself still holds on this input. -/
theorem C1_squad_invariants_bug :
    (runFplOptimizer (some pool16) "best_11_cheap_bench").error = none ∧
    ((runFplOptimizer (some pool16) "best_11_cheap_bench").optimal_starting_xi.getD []).length +
      ((runFplOptimizer (some pool16) "best_11_cheap_bench").bench.getD []).length = 16 ∧
    (((runFplOptimizer (some pool16) "best_11_cheap_bench").optimal_starting_xi.getD []) ++
      ((runFplOptimizer (some pool16) "best_11_cheap_bench").bench.getD [])).countP
        (fun r => r.pos == Pos.DEF) = 6 ∧
    totalPrice (xi16 ++ bench16) ≤ BUDGET := by
  rw [run_pool16]
  exact ⟨rfl, by decide, by decide, by decide⟩

/-! ## Claim C7 -/

/-- **C7 (code bug).** On the same successful `pool16` run the returned bench
has **five** members (2 DEF, 2 MID, then the goalkeeper), not the claimed
four.  The claimed ordering — non-goalkeepers first, goalkeeper last —
does hold. -/
theorem C7_bench_size_bug :
    (runFplOptimizer (some pool16) "best_11_cheap_bench").error = none ∧
    ((runFplOptimizer (some pool16) "best_11_cheap_bench").bench.getD []).length = 5 ∧
    ((runFplOptimizer (some pool16) "best_11_cheap_bench").bench.getD []).map (fun r => r.pos) =
      [.DEF, .DEF, .MID, .MID, .GKP] := by
  rw [run_pool16]
  exact ⟨rfl, by decide, by decide⟩

/-! ## Claim C2 — counterexample -/

/-- **C2 (counterexample).** The cost-sensitive strategy is *not* solved as
the spec's single joint integer program: on `pool16` the code's returned
squad/lineup pair is not even feasible for that program (its squad has 16
members, not 15). -/
theorem C2_not_joint_program_cex :
    b11cbCore (prepRows pool16) = .ok (xi16, bench16) ∧
    ¬ JointFeasible (prepRows pool16) (xi16 ++ bench16) xi16 := by
  refine ⟨b11cbCore_pool16, ?_⟩
  intro hj
  have h15 := hj.2.2.1
  have h16 : (xi16 ++ bench16).length = 16 := by decide
  rw [h16] at h15
  exact absurd h15 (by decide)

/-! ## Claim C5 — counterexample -/

/-- **C5 (counterexample).** A successful optimization (the
`best_11_cheap_bench` run on `pool16`) whose returned lineup does *not*
maximize adjusted value over the formation-valid 11-subsets of the returned
squad: swapping the benched 100-point goalkeeper in for the 1-point starting
goalkeeper stays within the squad and the formation bounds and is strictly
better. -/
theorem C5_lineup_not_optimal_cex :
    (runFplOptimizer (some pool16) "best_11_cheap_bench").error = none ∧
    b11cbCore (prepRows pool16) = .ok (xi16, bench16) ∧
    List.Sublist altXI16 (xi16 ++ bench16) ∧
    altXI16.length = TOTAL_STARTING_XI_PLAYERS ∧
    XiFeasible altXI16 ∧
    totalAdj xi16 < totalAdj altXI16 := by
  refine ⟨?_, b11cbCore_pool16, by decide, by decide, xiFeasB_iff.mp (by decide), by decide⟩
  rw [run_pool16]
  rfl

/-! ## Claim C9 — counterexample -/

/-- **C9 (counterexample).** The optimizer does not reject an unknown
strategy name: called with the strategy `"foo"`, which is in no strategy
table, it proceeds to solve (with the default objective) and returns a
successful result. -/
theorem C9_unknown_strategy_cex :
    (runFplOptimizer (some pool15) "foo").error = none := by
  rw [run_pool15_foo]
  rfl

/-! ## Claim C3 — counterexample -/

/-- **C3 (counterexample).** On a failure (missing `fpl_data.json`) the
optimizer's result carries only the error message: the `lineup`/`bench`
keys are *absent* (`none`), not present as empty collections, and there is
no zeroed summary. -/
theorem C3_failure_shape_cex :
    (runFplOptimizer none "best_15").error.isSome = true ∧
    (runFplOptimizer none "best_15").optimal_starting_xi = none ∧
    (runFplOptimizer none "best_15").bench = none ∧
    (runFplOptimizer none "best_15").summary = none := by decide

/-! ## Structural helpers for the run-level theorems -/

theorem b11cbCore_ok {rows xi br : List Row} (h : b11cbCore rows = .ok (xi, br)) :
    cheapestBench rows = some br ∧
    solveBinary (availableOf rows br) TOTAL_STARTING_XI_PLAYERS
      (xiFeasCheapB rows br (BUDGET - totalPrice br)) totalAdj = some xi := by
  unfold b11cbCore at h
  cases hcb : cheapestBench rows with
  | none => rw [hcb] at h; exact Except.noConfusion h
  | some br2 =>
    rw [hcb] at h
    dsimp only at h
    cases hs : solveBinary (availableOf rows br2) TOTAL_STARTING_XI_PLAYERS
        (xiFeasCheapB rows br2 (BUDGET - totalPrice br2)) totalAdj with
    | none => rw [hs] at h; exact Except.noConfusion h
    | some xi2 =>
      rw [hs] at h
      dsimp only at h
      injection h with h2
      injection h2 with hx hb
      subst hx
      subst hb
      exact ⟨rfl, hs⟩

theorem tradCore_ok {rows : List Row} {strategy : String} {dw ow diff : Q}
    {minCheap : Nat} {squad xi : List Row}
    (h : tradCore rows strategy dw ow diff minCheap = .ok (squad, xi)) :
    solveBinary rows TOTAL_SQUAD_PLAYERS (squadFeasB rows strategy minCheap)
      (squadObj strategy dw ow diff) = some squad ∧
    solveBinary squad TOTAL_STARTING_XI_PLAYERS xiFeasB totalAdj = some xi := by
  unfold tradCore at h
  cases hsq : solveBinary rows TOTAL_SQUAD_PLAYERS (squadFeasB rows strategy minCheap)
      (squadObj strategy dw ow diff) with
  | none => rw [hsq] at h; exact Except.noConfusion h
  | some sq2 =>
    rw [hsq] at h
    dsimp only at h
    cases hxi : solveBinary sq2 TOTAL_STARTING_XI_PLAYERS xiFeasB totalAdj with
    | none => rw [hxi] at h; exact Except.noConfusion h
    | some xi2 =>
      rw [hxi] at h
      dsimp only at h
      injection h with h2
      injection h2 with hx hb
      subst hx
      subst hb
      exact ⟨rfl, hxi⟩

theorem prepRows_idx_nodup (pool : List Player) :
    ((prepRows pool).map (fun r => r.idx)).Nodup := by
  have : (prepRows pool).map (fun r => r.idx) = pool.enum.map Prod.fst := by
    simp only [prepRows, List.map_map]
    rfl
  rw [this, List.enum_map_fst]
  exact List.nodup_range _

theorem availableOf_sublist (rows benchRows : List Row) :
    List.Sublist (availableOf rows benchRows) rows :=
  List.filter_sublist _

/-- Every run is either an error-only dictionary or an assembled result over
an eleven-row lineup with pairwise-distinct dataframe indices. -/
theorem runFpl_cases (data : Option (List Player)) (strategy : String)
    (dw ow diff : Q) (minCheap : Nat) :
    (∃ msg, runFplOptimizer data strategy dw ow diff minCheap =
      { error := some msg, optimal_starting_xi := none, bench := none, summary := none }) ∨
    (∃ xi benchRows squad, runFplOptimizer data strategy dw ow diff minCheap =
        formatResults xi benchRows squad strategy ∧
      xi.length = TOTAL_STARTING_XI_PLAYERS ∧ (xi.map (fun r => r.idx)).Nodup) := by
  cases data with
  | none => exact Or.inl ⟨_, rfl⟩
  | some pool =>
    by_cases hemp : pool.isEmpty
    · exact Or.inl ⟨"Ingen spelardata tillgänglig", by simp [runFplOptimizer, hemp]⟩
    · cases hcp : checkPositions (prepRows pool) with
      | some p =>
        exact Or.inl ⟨"Otillräckligt antal spelare för position",
          by simp [runFplOptimizer, hemp, hcp]⟩
      | none =>
        by_cases hbs : strategy = "best_11_cheap_bench"
        · cases hcore : b11cbCore (prepRows pool) with
          | error msg =>
            exact Or.inl ⟨msg, by simp [runFplOptimizer, hemp, hcp, hbs, hcore]⟩
          | ok pr =>
            obtain ⟨xi, br⟩ := pr
            obtain ⟨hcb, hs⟩ := b11cbCore_ok hcore
            obtain ⟨hsub, hlen, _⟩ := solveBinary_sound hs
            refine Or.inr ⟨xi, br, xi ++ br, ?_, hlen, ?_⟩
            · simp [runFplOptimizer, hemp, hcp, hbs, hcore]
            · exact ((prepRows_idx_nodup pool).sublist
                (((hsub.trans (availableOf_sublist _ _))).map (fun r => r.idx)))
        · cases hcore : tradCore (prepRows pool) strategy dw ow diff minCheap with
          | error msg =>
            exact Or.inl ⟨msg, by simp [runFplOptimizer, hemp, hcp, hbs, hcore]⟩
          | ok pr =>
            obtain ⟨squad, xi⟩ := pr
            obtain ⟨hsq, hxi⟩ := tradCore_ok hcore
            obtain ⟨hsqsub, _, _⟩ := solveBinary_sound hsq
            obtain ⟨hxisub, hxilen, _⟩ := solveBinary_sound hxi
            refine Or.inr ⟨xi, availableOf squad xi, squad, ?_, hxilen, ?_⟩
            · simp [runFplOptimizer, hemp, hcp, hbs, hcore]
            · exact ((prepRows_idx_nodup pool).sublist
                ((hxisub.trans hsqsub).map (fun r => r.idx)))

theorem allPositions_mem (pos : Pos) : pos ∈ allPositions := by
  cases pos <;> simp [allPositions]

/-- The reduced starting-XI problem the cheap-bench strategy actually solves:
leftover budget, formation bounds, and the per-team cap net of the reserved
bench. -/
def ReducedXiFeasible (rows benchRows : List Row) (t : List Row) : Prop :=
  totalPrice t ≤ BUDGET - totalPrice benchRows ∧ XiFeasible t ∧
  ∀ tm ∈ teamsOf rows,
    t.countP (fun r => r.team == tm) + benchRows.countP (fun r => r.team == tm)
      ≤ MAX_PLAYERS_PER_CLUB

theorem xiFeasCheapB_iff {rows benchRows t : List Row} :
    xiFeasCheapB rows benchRows (BUDGET - totalPrice benchRows) t = true ↔
      ReducedXiFeasible rows benchRows t := by
  simp only [xiFeasCheapB, ReducedXiFeasible, XiFeasible, Bool.and_eq_true,
    decide_eq_true_eq, List.all_eq_true]
  constructor
  · rintro ⟨⟨hb, hpos⟩, hteams⟩
    refine ⟨hb, ?_, hteams⟩
    intro pos
    have := hpos pos (allPositions_mem pos)
    simpa using this
  · rintro ⟨hb, hpos, hteams⟩
    refine ⟨⟨hb, ?_⟩, hteams⟩
    intro pos _
    simpa using hpos pos

/-! ## Claim C2 — amended -/

/-- **C2 (amended).** For every input pool on which the cost-sensitive
strategy succeeds, it is solved by a **two-phase heuristic**, not a joint
program: the cheapest goalkeeper and the two cheapest defenders and
midfielders are first reserved as the bench greedily by price, and then one
binary program selects the eleven starters from the remaining pool,
maximizing total adjusted value under the leftover budget, the formation
bounds, and the per-team cap net of bench members.  There are no in-squad /
in-lineup paired variables and no price penalty `λ` in the objective. -/
theorem C2_two_phase_characterization (rows : List Row)
    (h : (b11cbCore rows).toOption.isSome = true) :
    ∃ xi br, b11cbCore rows = .ok (xi, br) ∧
      cheapestBench rows = some br ∧
      List.Sublist xi (availableOf rows br) ∧
      xi.length = TOTAL_STARTING_XI_PLAYERS ∧
      ReducedXiFeasible rows br xi ∧
      ∀ t, List.Sublist t (availableOf rows br) → t.length = TOTAL_STARTING_XI_PLAYERS →
        ReducedXiFeasible rows br t → totalAdj t ≤ totalAdj xi := by
  cases hcore : b11cbCore rows with
  | error m => rw [hcore] at h; simp [Except.toOption] at h
  | ok pr =>
    obtain ⟨xi, br⟩ := pr
    obtain ⟨hcb, hs⟩ := b11cbCore_ok hcore
    obtain ⟨hsub, hlen, hfeas⟩ := solveBinary_sound hs
    refine ⟨xi, br, rfl, hcb, hsub, hlen, xiFeasCheapB_iff.mp hfeas, ?_⟩
    intro t ht htlen htfeas
    exact solveBinary_optimal hs t ht htlen (xiFeasCheapB_iff.mpr htfeas)

/-- Witness for C2 (amended) on `pool16`. -/
theorem C2_two_phase_characterization_witness :
    (b11cbCore (prepRows pool16)).toOption.isSome = true ∧
    (∃ xi br, b11cbCore (prepRows pool16) = .ok (xi, br) ∧
      cheapestBench (prepRows pool16) = some br ∧
      List.Sublist xi (availableOf (prepRows pool16) br) ∧
      xi.length = TOTAL_STARTING_XI_PLAYERS ∧
      ReducedXiFeasible (prepRows pool16) br xi ∧
      ∀ t, List.Sublist t (availableOf (prepRows pool16) br) →
        t.length = TOTAL_STARTING_XI_PLAYERS →
        ReducedXiFeasible (prepRows pool16) br t → totalAdj t ≤ totalAdj xi) :=
  ⟨by rw [b11cbCore_pool16]; rfl,
   C2_two_phase_characterization _ (by rw [b11cbCore_pool16]; rfl)⟩

/-! ## Claim C5 — amended -/

/-- **C5 (amended).** For every successful optimization under a
**traditional** strategy (everything except `best_11_cheap_bench`), the
returned starting lineup is a subset of the returned squad, has exactly 11
members within the formation bounds, and maximizes the sum of adjusted
values over all such subsets of the squad.  (Under `best_11_cheap_bench` the
lineup optimizes only over the non-bench pool under the leftover budget and
need not be optimal within the returned squad — see the counterexample.) -/
theorem C5_traditional_lineup_optimal (rows : List Row) (strategy : String)
    (dw ow diff : Q) (minCheap : Nat)
    (h : (tradCore rows strategy dw ow diff minCheap).toOption.isSome = true) :
    ∃ squad xi, tradCore rows strategy dw ow diff minCheap = .ok (squad, xi) ∧
      List.Sublist xi squad ∧ xi.length = TOTAL_STARTING_XI_PLAYERS ∧ XiFeasible xi ∧
      ∀ t, List.Sublist t squad → t.length = TOTAL_STARTING_XI_PLAYERS → XiFeasible t →
        totalAdj t ≤ totalAdj xi := by
  cases hcore : tradCore rows strategy dw ow diff minCheap with
  | error m => rw [hcore] at h; simp [Except.toOption] at h
  | ok pr =>
    obtain ⟨squad, xi⟩ := pr
    obtain ⟨hsq, hxi⟩ := tradCore_ok hcore
    obtain ⟨hxisub, hxilen, hxifeas⟩ := solveBinary_sound hxi
    refine ⟨squad, xi, rfl, hxisub, hxilen, xiFeasB_iff.mp hxifeas, ?_⟩
    intro t ht htlen htfeas
    exact solveBinary_optimal hxi t ht htlen (xiFeasB_iff.mpr htfeas)

/-- Witness for C5 (amended) on `pool15` under the default strategy. -/
theorem C5_traditional_lineup_optimal_witness :
    (tradCore (prepRows pool15) "best_15" (Q.tenths 12) (Q.tenths 12)
        (Q.norm 5 100 (by decide)) 4).toOption.isSome = true ∧
    (∃ squad xi, tradCore (prepRows pool15) "best_15" (Q.tenths 12) (Q.tenths 12)
        (Q.norm 5 100 (by decide)) 4 = .ok (squad, xi) ∧
      List.Sublist xi squad ∧ xi.length = TOTAL_STARTING_XI_PLAYERS ∧ XiFeasible xi ∧
      ∀ t, List.Sublist t squad → t.length = TOTAL_STARTING_XI_PLAYERS → XiFeasible t →
        totalAdj t ≤ totalAdj xi) :=
  ⟨by rw [tradCore_pool15]; rfl,
   C5_traditional_lineup_optimal _ _ _ _ _ _ (by rw [tradCore_pool15]; rfl)⟩

/-! ## Claim C3 — amended -/

/-- **C3 (amended).** Optimizer-level failures carry *only* the
human-readable `error` message — the `lineup`/`bench`/`summary` keys are
absent, and there is no structured error kind.  Only the endpoint's own
optimizer-unavailable error body has the uniform shape with empty
collections and a zeroed summary. -/
theorem C3_failure_error_only (data : Option (List Player)) (strategy : String)
    (dw ow diff : Q) (minCheap : Nat) (m : String)
    (h : (runFplOptimizer data strategy dw ow diff minCheap).error = some m) :
    runFplOptimizer data strategy dw ow diff minCheap =
      { error := some m, optimal_starting_xi := none, bench := none, summary := none } ∧
    ∀ (s : String) (fplData : Option (List Player)) (opt : List Player → String → ApiResult),
      s ∈ validStrategies →
      optimizeTeam s false fplData opt = .body (emptyShapeResult s
        "Optimizer logic not available - check OR-Tools installation and deployment") := by
  constructor
  · rcases runFpl_cases data strategy dw ow diff minCheap with ⟨msg, heq⟩ | ⟨xi, br, sq, heq, _, _⟩
    · rw [heq] at h ⊢
      simp only [Option.some.injEq] at h
      rw [h]
    · rw [heq] at h
      simp [formatResults] at h
  · intro s fplData opt hv
    fin_cases hv <;> rfl

/-- Witness for C3 (amended) at the missing-data failure. -/
theorem C3_failure_error_only_witness :
    (runFplOptimizer none "best_15").error =
      some "Datakällan fpl_data.json hittades inte i app-mappen." ∧
    (runFplOptimizer none "best_15" =
      { error := some "Datakällan fpl_data.json hittades inte i app-mappen.",
        optimal_starting_xi := none, bench := none, summary := none } ∧
    ∀ (s : String) (fplData : Option (List Player)) (opt : List Player → String → ApiResult),
      s ∈ validStrategies →
      optimizeTeam s false fplData opt = .body (emptyShapeResult s
        "Optimizer logic not available - check OR-Tools installation and deployment")) :=
  ⟨rfl, C3_failure_error_only none "best_15" (Q.tenths 12) (Q.tenths 12)
    (Q.norm 5 100 (by decide)) 4 _ rfl⟩

/-! ## Claim C9 — amended -/

/-- The strategy names that change the optimizer's behaviour; any other name
falls through to the default `best_15` objective. -/
def specialStrategies : List String :=
  ["best_11_cheap_bench", "defensive", "offensive", "differential", "enabling"]

/-- Replace the echoed strategy name of a result, leaving everything else. -/
def echoStrategy (s : String) (r : ApiResult) : ApiResult :=
  { r with summary := r.summary.map (fun sm => { sm with strategy_used := s }) }

/-- **C9 (amended).** An unknown strategy name is rejected (HTTP 400) only by
the endpoint, before the optimizer is invoked; the optimizer itself treats
any unknown strategy name as the default `best_15` objective and proceeds to
solve, its result differing only in the echoed strategy name. -/
theorem C9_unknown_strategy_amended (s : String)
    (avail : Bool) (fplData : Option (List Player)) (opt : List Player → String → ApiResult)
    (data : Option (List Player)) (dw ow diff : Q) (minCheap : Nat)
    (hs : s ∉ validStrategies) :
    optimizeTeam s avail fplData opt = .httpError 400 "Invalid strategy." ∧
    runFplOptimizer data s dw ow diff minCheap =
      echoStrategy s (runFplOptimizer data "best_15" dw ow diff minCheap) := by
  have hb : ¬ s = "best_11_cheap_bench" := fun h => hs (by rw [h]; decide)
  have hdef : ¬ s = "defensive" := fun h => hs (by rw [h]; decide)
  have hoff : ¬ s = "offensive" := fun h => hs (by rw [h]; decide)
  have hdif : ¬ s = "differential" := fun h => hs (by rw [h]; decide)
  have hen : ¬ s = "enabling" := fun h => hs (by rw [h]; decide)
  have h15 : ¬ s = "best_15" := fun h => hs (by rw [h]; decide)
  constructor
  · have hc : validStrategies.contains s = false := by
      cases hcc : validStrategies.contains s
      · rfl
      · exact absurd (by simpa [validStrategies] using (List.mem_of_elem_eq_true hcc)) hs
    simp [optimizeTeam, hc, hs]
  · have hsv : stratValue s dw ow diff = stratValue "best_15" dw ow diff := by
      funext r
      simp only [stratValue]
      rw [if_neg hdef, if_neg hoff, if_neg hdif,
        if_neg (by decide : ¬("best_15" : String) = "defensive"),
        if_neg (by decide : ¬("best_15" : String) = "offensive"),
        if_neg (by decide : ¬("best_15" : String) = "differential")]
    have hobj : squadObj s dw ow diff = squadObj "best_15" dw ow diff := by
      funext l
      simp only [squadObj, hsv]
    have hfeas : ∀ pool : List Row,
        squadFeasB pool s minCheap = squadFeasB pool "best_15" minCheap := by
      intro pool
      funext l
      simp only [squadFeasB]
      rw [if_neg hen, if_neg (by decide : ¬("best_15" : String) = "enabling")]
    cases data with
    | none => rfl
    | some pool =>
      by_cases hemp : pool.isEmpty
      · simp [runFplOptimizer, hemp, echoStrategy]
      · cases hcp : checkPositions (prepRows pool) with
        | some p => simp [runFplOptimizer, hemp, hcp, echoStrategy]
        | none =>
          have htc : tradCore (prepRows pool) s dw ow diff minCheap =
              tradCore (prepRows pool) "best_15" dw ow diff minCheap := by
            unfold tradCore
            rw [hobj, hfeas]
          simp only [runFplOptimizer, hemp, hcp, if_neg hb,
            if_neg (by decide : ¬("best_15" : String) = "best_11_cheap_bench"), htc]
          cases htcc : tradCore (prepRows pool) "best_15" dw ow diff minCheap with
          | error m => simp [echoStrategy]
          | ok pr =>
            obtain ⟨sq, xi⟩ := pr
            simp [echoStrategy, formatResults]

/-- Witness for C9 (amended) at the unknown strategy name `"foo"`. -/
theorem C9_unknown_strategy_amended_witness :
    "foo" ∉ validStrategies ∧
    (optimizeTeam "foo" true none (fun _ _ => { error := none }) =
        .httpError 400 "Invalid strategy." ∧
      runFplOptimizer none "foo" (Q.tenths 12) (Q.tenths 12) (Q.norm 5 100 (by decide)) 4 =
        echoStrategy "foo" (runFplOptimizer none "best_15" (Q.tenths 12) (Q.tenths 12)
          (Q.norm 5 100 (by decide)) 4)) :=
  ⟨by decide, C9_unknown_strategy_amended "foo" true none (fun _ _ => { error := none })
    none (Q.tenths 12) (Q.tenths 12) (Q.norm 5 100 (by decide)) 4 (by decide)⟩

/-! ## Claim C8 — captaincy -/

/-- **C8.** On every successful optimization the summary's captain and
vice-captain are the first two entries of the lineup sorted by descending
adjusted value (a deterministic sort, so identical inputs give the same
pair): they are members of the lineup with distinct dataframe indices, the
captain's adjusted value is at least the vice-captain's, and the
vice-captain's is at least that of every other lineup member. -/
theorem C8_captaincy (data : Option (List Player)) (strategy : String)
    (dw ow diff : Q) (minCheap : Nat)
    (h : (runFplOptimizer data strategy dw ow diff minCheap).error = none) :
    ∃ smry xiRows cr vr rest,
      (runFplOptimizer data strategy dw ow diff minCheap).summary = some smry ∧
      (runFplOptimizer data strategy dw ow diff minCheap).optimal_starting_xi =
        some (xiRows.map project) ∧
      captaincyOrder xiRows = cr :: vr :: rest ∧
      smry.captain = some (project cr) ∧
      smry.vice_captain = some (project vr) ∧
      cr ∈ xiRows ∧ vr ∈ xiRows ∧ cr.idx ≠ vr.idx ∧
      vr.adj ≤ cr.adj ∧
      ∀ r ∈ xiRows, r.idx ≠ cr.idx → r.idx ≠ vr.idx → r.adj ≤ vr.adj := by
  rcases runFpl_cases data strategy dw ow diff minCheap with ⟨msg, heq⟩ | ⟨xi, br, sq, heq, hlen, hnd⟩
  · rw [heq] at h
    exact absurd h (by simp)
  · rw [heq]
    have hperm : List.Perm (List.insertionSort byPosThenAdj xi) xi :=
      List.perm_insertionSort _ _
    have hlen2 : (List.insertionSort byPosThenAdj xi).length = TOTAL_STARTING_XI_PLAYERS := by
      rw [hperm.length_eq]
      exact hlen
    have hnd2 : ((List.insertionSort byPosThenAdj xi).map (fun r => r.idx)).Nodup :=
      ((hperm.map _).nodup_iff).mpr hnd
    have hcperm : List.Perm (captaincyOrder (List.insertionSort byPosThenAdj xi))
        (List.insertionSort byPosThenAdj xi) := List.perm_insertionSort _ _
    have hsorted : List.Sorted byAdjDesc (captaincyOrder (List.insertionSort byPosThenAdj xi)) :=
      List.sorted_insertionSort _ _
    have hclen : (captaincyOrder (List.insertionSort byPosThenAdj xi)).length = 11 := by
      rw [hcperm.length_eq, hlen2]
      rfl
    obtain ⟨cr, vr, rest, hcap⟩ :
        ∃ cr vr rest, captaincyOrder (List.insertionSort byPosThenAdj xi) = cr :: vr :: rest := by
      rcases hc : captaincyOrder (List.insertionSort byPosThenAdj xi) with _ | ⟨c1, _ | ⟨c2, t⟩⟩
      · rw [hc] at hclen; simp at hclen
      · rw [hc] at hclen; simp at hclen
      · exact ⟨c1, c2, t, rfl⟩
    have hndcap : ((cr :: vr :: rest).map (fun r => r.idx)).Nodup := by
      rw [← hcap]
      exact ((hcperm.map _).nodup_iff).mpr hnd2
    simp only [List.map_cons, List.nodup_cons, List.mem_cons, List.mem_map] at hndcap
    have hsorted2 : List.Sorted byAdjDesc (cr :: vr :: rest) := hcap ▸ hsorted
    refine ⟨_, List.insertionSort byPosThenAdj xi, cr, vr, rest, rfl, rfl, hcap,
      ?_, ?_, ?_, ?_, ?_, ?_, ?_⟩
    · show ((captaincyOrder (List.insertionSort byPosThenAdj xi)).head?).map project =
        some (project cr)
      rw [show captaincyOrder (List.insertionSort byPosThenAdj xi) = cr :: vr :: rest from hcap]
      rfl
    · show ((captaincyOrder (List.insertionSort byPosThenAdj xi))[1]?).map project =
        some (project vr)
      rw [show captaincyOrder (List.insertionSort byPosThenAdj xi) = cr :: vr :: rest from hcap]
      simp
    · exact hcperm.mem_iff.mp (by rw [hcap]; exact List.mem_cons_self _ _)
    · exact hcperm.mem_iff.mp
        (by rw [hcap]; exact List.mem_cons_of_mem _ (List.mem_cons_self _ _))
    · exact fun hh => hndcap.1 (Or.inl hh)
    · exact List.rel_of_sorted_cons hsorted2 vr (List.mem_cons_self _ _)
    · intro r hr hrc hrv
      have hrcap : r ∈ cr :: vr :: rest := by
        rw [← hcap]
        exact hcperm.mem_iff.mpr hr
      simp only [List.mem_cons] at hrcap
      rcases hrcap with rfl | rfl | hrest
      · exact absurd rfl hrc
      · exact absurd rfl hrv
      · exact List.rel_of_sorted_cons (List.Sorted.of_cons hsorted2) r hrest

/-- Witness for C8 on the successful `pool16` run. -/
theorem C8_captaincy_witness :
    (runFplOptimizer (some pool16) "best_11_cheap_bench").error = none ∧
    (∃ smry xiRows cr vr rest,
      (runFplOptimizer (some pool16) "best_11_cheap_bench").summary = some smry ∧
      (runFplOptimizer (some pool16) "best_11_cheap_bench").optimal_starting_xi =
        some (xiRows.map project) ∧
      captaincyOrder xiRows = cr :: vr :: rest ∧
      smry.captain = some (project cr) ∧
      smry.vice_captain = some (project vr) ∧
      cr ∈ xiRows ∧ vr ∈ xiRows ∧ cr.idx ≠ vr.idx ∧
      vr.adj ≤ cr.adj ∧
      ∀ r ∈ xiRows, r.idx ≠ cr.idx → r.idx ≠ vr.idx → r.adj ≤ vr.adj) :=
  ⟨by rw [run_pool16]; rfl,
   C8_captaincy (some pool16) "best_11_cheap_bench" (Q.tenths 12) (Q.tenths 12)
     (Q.norm 5 100 (by decide)) 4 (by rw [run_pool16]; rfl)⟩

/-! ## Claim C10 — the greedy bench -/

/-- Change a row's adjusted value, leaving every other column. -/
def reAdj (g : Row → Q) (r : Row) : Row := { r with adj := g r }

theorem orderedInsert_reAdj (g : Row → Q) (a : Row) (l : List Row) :
    List.orderedInsert byPriceAsc (reAdj g a) (l.map (reAdj g)) =
      (List.orderedInsert byPriceAsc a l).map (reAdj g) := by
  induction l with
  | nil => rfl
  | cons b t ih =>
    simp only [List.map_cons, List.orderedInsert]
    by_cases hab : byPriceAsc a b
    · rw [if_pos hab, if_pos (show byPriceAsc (reAdj g a) (reAdj g b) from hab)]
      simp
    · rw [if_neg hab, if_neg (show ¬ byPriceAsc (reAdj g a) (reAdj g b) from hab)]
      simp only [List.map_cons, ih]

theorem insertionSort_reAdj (g : Row → Q) (l : List Row) :
    List.insertionSort byPriceAsc (l.map (reAdj g)) =
      (List.insertionSort byPriceAsc l).map (reAdj g) := by
  induction l with
  | nil => rfl
  | cons a t ih =>
    simp only [List.map_cons, List.insertionSort, ih, orderedInsert_reAdj]

theorem filter_pos_reAdj (g : Row → Q) (pos : Pos) (rows : List Row) :
    (rows.map (reAdj g)).filter (fun r => r.pos == pos) =
      (rows.filter (fun r => r.pos == pos)).map (reAdj g) := by
  induction rows with
  | nil => rfl
  | cons a t ih =>
    simp only [List.map_cons, List.filter_cons]
    have : ((reAdj g a).pos == pos) = (a.pos == pos) := rfl
    rw [this]
    split
    · simp only [List.map_cons, ih]
    · exact ih

theorem takeCheapest_reAdj (g : Row → Q) (k : Nat) (pos : Pos) (rows : List Row) :
    takeCheapest k pos (rows.map (reAdj g)) =
      (takeCheapest k pos rows).map (fun l => l.map (reAdj g)) := by
  simp only [takeCheapest, filter_pos_reAdj, insertionSort_reAdj, List.length_map]
  split
  · rfl
  · simp [List.map_take]

theorem cheapestBench_reAdj (g : Row → Q) (rows : List Row) :
    cheapestBench (rows.map (reAdj g)) =
      (cheapestBench rows).map (fun l => l.map (reAdj g)) := by
  simp only [cheapestBench, takeCheapest_reAdj]
  cases takeCheapest (benchQuota .GKP) .GKP rows <;>
    cases takeCheapest (benchQuota .DEF) .DEF rows <;>
    cases takeCheapest (benchQuota .MID) .MID rows <;>
    simp [Option.map]

/-- What `takeCheapest` returns: `k` rows of the requested position, no
costlier than any same-position row of the pool left out. -/
theorem takeCheapest_spec {k : Nat} {pos : Pos} {rows sel : List Row}
    (h : takeCheapest k pos rows = some sel) :
    sel.length = k ∧ (∀ p ∈ sel, p.pos = pos) ∧
    ∀ p ∈ sel, ∀ q ∈ rows, q.pos = pos → q ∉ sel → p.price ≤ q.price := by
  unfold takeCheapest at h
  split at h
  · exact Option.noConfusion h
  · rename_i hlen
    injection h with h
    subst h
    have hsorted : List.Sorted byPriceAsc
        (List.insertionSort byPriceAsc (rows.filter (fun r => r.pos == pos))) :=
      List.sorted_insertionSort _ _
    have hperm : List.Perm (List.insertionSort byPriceAsc (rows.filter (fun r => r.pos == pos)))
        (rows.filter (fun r => r.pos == pos)) := List.perm_insertionSort _ _
    refine ⟨?_, ?_, ?_⟩
    · rw [List.length_take]
      omega
    · intro p hp
      have hmem : p ∈ rows.filter (fun r => r.pos == pos) :=
        hperm.mem_iff.mp (List.take_subset _ _ hp)
      have := (List.mem_filter.mp hmem).2
      simpa using this
    · intro p hp q hq hqpos hqsel
      have hqmem : q ∈ List.insertionSort byPriceAsc (rows.filter (fun r => r.pos == pos)) :=
        hperm.mem_iff.mpr (List.mem_filter.mpr ⟨hq, by simpa using hqpos⟩)
      rw [← List.take_append_drop k
        (List.insertionSort byPriceAsc (rows.filter (fun r => r.pos == pos)))] at hqmem
      rcases List.mem_append.mp hqmem with hq1 | hq2
      · exact absurd hq1 hqsel
      · have hpairs : List.Pairwise byPriceAsc
            (List.take k (List.insertionSort byPriceAsc
              (rows.filter (fun r => r.pos == pos))) ++
             List.drop k (List.insertionSort byPriceAsc
              (rows.filter (fun r => r.pos == pos)))) := by
          rw [List.take_append_drop]
          exact hsorted
        exact (List.pairwise_append.mp hpairs).2.2 p hp q hq2

/-- **C10.** Whenever the `best_11_cheap_bench` core succeeds, its bench is
exactly the greedily chosen cheapest 1 GKP, 2 DEF and 2 MID of the pool
(and 0 FWD): it is computed by `cheapestBench` before the lineup program is
solved, each bench member's price is at most that of every same-position
pool row left off the bench, no forward is ever benched, and the selection
is invariant under arbitrary changes of the adjusted values. -/
theorem C10_cheap_bench_greedy (rows : List Row)
    (h : (b11cbCore rows).toOption.isSome = true) :
    ∃ xi br, b11cbCore rows = .ok (xi, br) ∧
      cheapestBench rows = some br ∧
      countPos .GKP br = 1 ∧ countPos .DEF br = 2 ∧ countPos .MID br = 2 ∧
      countPos .FWD br = 0 ∧
      (∀ p ∈ br, ∀ q ∈ rows, q.pos = p.pos → q ∉ br → p.price ≤ q.price) ∧
      ∀ g : Row → Q, cheapestBench (rows.map (reAdj g)) = some (br.map (reAdj g)) := by
  cases hcore : b11cbCore rows with
  | error m => rw [hcore] at h; simp [Except.toOption] at h
  | ok pr =>
    obtain ⟨xi, br⟩ := pr
    obtain ⟨hcb, hs⟩ := b11cbCore_ok hcore
    have hcb2 := hcb
    unfold cheapestBench at hcb2
    cases hg : takeCheapest (benchQuota .GKP) .GKP rows with
    | none => rw [hg] at hcb2; exact Option.noConfusion hcb2
    | some selg =>
      cases hd : takeCheapest (benchQuota .DEF) .DEF rows with
      | none => rw [hg, hd] at hcb2; exact Option.noConfusion hcb2
      | some seld =>
        cases hm : takeCheapest (benchQuota .MID) .MID rows with
        | none => rw [hg, hd, hm] at hcb2; exact Option.noConfusion hcb2
        | some selm =>
          rw [hg, hd, hm] at hcb2
          dsimp only at hcb2
          injection hcb2 with hbr
          obtain ⟨hgl, hgpos, hgmin⟩ := takeCheapest_spec hg
          obtain ⟨hdl, hdpos, hdmin⟩ := takeCheapest_spec hd
          obtain ⟨hml, hmpos, hmmin⟩ := takeCheapest_spec hm
          have hcount : ∀ pos : Pos, countPos pos br =
              (if pos = .GKP then selg.length else 0) +
              (if pos = .DEF then seld.length else 0) +
              (if pos = .MID then selm.length else 0) := by
            intro pos
            rw [← hbr]
            simp only [countPos, List.countP_append]
            congr 1
            · congr 1
              · by_cases hpg : pos = .GKP
                · subst hpg
                  rw [if_pos rfl]
                  exact List.countP_eq_length.mpr (fun a ha => by
                    simpa using hgpos a ha)
                · rw [if_neg hpg]
                  exact List.countP_eq_zero.mpr (fun a ha => by
                    simp only [beq_iff_eq]
                    rw [hgpos a ha]
                    exact fun hh => hpg hh.symm)
              · by_cases hpd : pos = .DEF
                · subst hpd
                  rw [if_pos rfl]
                  exact List.countP_eq_length.mpr (fun a ha => by
                    simpa using hdpos a ha)
                · rw [if_neg hpd]
                  exact List.countP_eq_zero.mpr (fun a ha => by
                    simp only [beq_iff_eq]
                    rw [hdpos a ha]
                    exact fun hh => hpd hh.symm)
            · by_cases hpm : pos = .MID
              · subst hpm
                rw [if_pos rfl]
                exact List.countP_eq_length.mpr (fun a ha => by
                  simpa using hmpos a ha)
              · rw [if_neg hpm]
                exact List.countP_eq_zero.mpr (fun a ha => by
                  simp only [beq_iff_eq]
                  rw [hmpos a ha]
                  exact fun hh => hpm hh.symm)
          refine ⟨xi, br, rfl, hcb, ?_, ?_, ?_, ?_, ?_, ?_⟩
          · rw [hcount .GKP, hgl]
            simp [benchQuota]
          · rw [hcount .DEF, hdl]
            simp [benchQuota]
          · rw [hcount .MID, hml]
            simp [benchQuota]
          · rw [hcount .FWD]
            simp
          · intro p hp q hq hqpos hqbr
            rw [← hbr] at hp
            have hqg : q ∉ selg := fun hh => hqbr (by rw [← hbr]; simp [hh])
            have hqd : q ∉ seld := fun hh => hqbr (by rw [← hbr]; simp [hh])
            have hqm : q ∉ selm := fun hh => hqbr (by rw [← hbr]; simp [hh])
            rcases List.mem_append.mp hp with hp1 | hp2
            · rcases List.mem_append.mp hp1 with hpg | hpd
              · exact hgmin p hpg q hq (by rw [hqpos, hgpos p hpg]) hqg
              · exact hdmin p hpd q hq (by rw [hqpos, hdpos p hpd]) hqd
            · exact hmmin p hp2 q hq (by rw [hqpos, hmpos p hp2]) hqm
          · intro g
            rw [cheapestBench_reAdj, hcb]
            rfl

/-- Witness for C10 on `pool16`. -/
theorem C10_cheap_bench_greedy_witness :
    (b11cbCore (prepRows pool16)).toOption.isSome = true ∧
    (∃ xi br, b11cbCore (prepRows pool16) = .ok (xi, br) ∧
      cheapestBench (prepRows pool16) = some br ∧
      countPos .GKP br = 1 ∧ countPos .DEF br = 2 ∧ countPos .MID br = 2 ∧
      countPos .FWD br = 0 ∧
      (∀ p ∈ br, ∀ q ∈ prepRows pool16, q.pos = p.pos → q ∉ br → p.price ≤ q.price) ∧
      ∀ g : Row → Q, cheapestBench ((prepRows pool16).map (reAdj g)) =
        some (br.map (reAdj g))) :=
  ⟨by rw [b11cbCore_pool16]; rfl,
   C10_cheap_bench_greedy _ (by rw [b11cbCore_pool16]; rfl)⟩
